import Mathlib

/-!
Verification of the SELECT-statement query-plan compiler of
src/box/sql/select.c (Tarantool SQL frontend).

The file shallowly embeds the code-generation routines of select.c and the
runtime effect of the instruction sequences they emit.  The bytecode
interpreter itself is not part of the repository under scrutiny, so the
runtime semantics of individual opcodes (OP_IdxInsert, OP_IdxDelete,
OP_DecrJumpZero, OP_IfPos, OP_Once, OP_Count, ...) is modelled from the
spec; the structure of the emitted programs, the branch conditions and the
tree rewrites are translated directly from select.c.

Rows are tuples of integers; relations are lists of rows (the order of a
list is the scan order of the corresponding cursor).
-/

abbrev Row : Type := List Int

abbrev Table : Type := List Row

/-- A database maps a space id to the rows of that space. -/
abbrev Db : Type := Nat → Table

/-- The compound set operator of a Select node: p->op is one of
TK_ALL, TK_UNION, TK_EXCEPT, TK_INTERSECT (select.c, multiSelect). -/
inductive SetOp : Type
  | all
  | union
  | except
  | intersect
deriving DecidableEq

/-! ### Ephemeral set relations used by multiSelect (no ORDER BY)

multiSelect opens ephemeral tables whose key_def covers every result
column (select.c, end of multiSelect: one key part per result column), so
two rows agree on the key exactly when they are equal.  `OP_IdxInsert`
stores a row under its key (a second insert of the same key leaves the
set of rows unchanged) and `OP_IdxDelete` removes the row with the given
key.  Both runtime effects are modelled from the spec, the interpreter
being outside this repository. -/

/-- Modelled from the spec: runtime effect of OP_IdxInsert on an ephemeral
table keyed by the whole row (selectInnerLoop, case SRT_Union). -/
def idxInsert (t : List Row) (r : Row) : List Row :=
  if r ∈ t then t else t ++ [r]

/-- Modelled from the spec: runtime effect of OP_IdxDelete on an ephemeral
table keyed by the whole row (selectInnerLoop, case SRT_Except). -/
def idxDelete (t : List Row) (r : Row) : List Row :=
  t.filter (fun x => x ≠ r)

/-- Running a SELECT term with destination SRT_Union inserts every produced
row into the ephemeral table (selectInnerLoop, case SRT_Union). -/
def fillUnion (t : List Row) (rows : List Row) : List Row :=
  rows.foldl idxInsert t

/-- Running a SELECT term with destination SRT_Except deletes every produced
row from the ephemeral table (selectInnerLoop, case SRT_Except). -/
def fillExcept (t : List Row) (rows : List Row) : List Row :=
  rows.foldl idxDelete t

/-- Result rows of the plan multiSelect emits for a two-term compound
query without ORDER BY, given the result sequences A and B of the two
terms (select.c, multiSelect):
* TK_ALL: both terms are compiled one after the other against the same
  destination, so the outputs are concatenated;
* TK_UNION: the left term fills an ephemeral table via SRT_Union, then the
  right term runs against the same table via SRT_Union, and the table is
  scanned to the destination;
* TK_EXCEPT: as UNION, but the right term runs via SRT_Except (delete);
* TK_INTERSECT: the two terms fill two ephemeral tables tab1 and tab2 via
  SRT_Union; the final loop scans tab1 and emits exactly the rows whose
  key is found in tab2 (OP_NotFound skips the others). -/
def compoundNoOrderBy (op : SetOp) (A B : List Row) : List Row :=
  match op with
  | SetOp.all => A ++ B
  | SetOp.union => fillUnion (fillUnion [] A) B
  | SetOp.except => fillExcept (fillUnion [] A) B
  | SetOp.intersect =>
      (fillUnion [] A).filter (fun r => r ∈ fillUnion [] B)

/-! ### The ordered-merge evaluator (multiSelectOrderBy)

multiSelectOrderBy compiles the two terms as coroutines A and B and drives
them with a three-way comparison under the merge key (the ORDER BY list,
extended for the non-UNION-ALL operators so that it covers every result
column).  The per-label behaviour is translated from the code that builds
AltB / AeqB / AgtB / EofA / EofB (select.c, multiSelectOrderBy):

* outA / outB (generateOutputSubroutine): for the non-UNION-ALL operators a
  row equal to the previously output row (register set regPrev) is
  suppressed, otherwise it is emitted and becomes the new previous row;
  for UNION ALL regPrev is 0 and no suppression happens;
* AltB: Gosub outA; Yield A — except for INTERSECT, where addrAltB is
  bumped past the Gosub, so A only advances;
* AeqB: for UNION ALL, addrAeqB = addrAltB (out A, advance A); for
  INTERSECT, addrAeqB points at the Gosub outA (out A, advance A); for
  UNION and EXCEPT, AeqB is a bare Yield A (advance A, no output);
* AgtB: Gosub outB only for UNION ALL and UNION, then Yield B;
* EofA: for EXCEPT and INTERSECT, addrEofA = labelEnd (stop); otherwise a
  loop Gosub outB; Yield B (drain B);
* EofB: for INTERSECT, addrEofB = addrEofA = labelEnd (stop); otherwise a
  loop Gosub outA; Yield A (drain A).

The coroutine rows are the two lists; the driver is the recursion below.
The runtime semantics of OP_Yield / OP_Compare / OP_Jump is modelled from
the spec, the interpreter being outside this repository. -/

/-- The duplicate-suppressing output subroutine of multiSelectOrderBy
(generateOutputSubroutine): with a regPrev comparison (every operator but
UNION ALL) a row equal to the previous output row is dropped; otherwise the
row is emitted and recorded as the new previous row. -/
def outputRow (op : SetOp) (prev : Option Row) (r : Row) :
    List Row × Option Row :=
  match op with
  | SetOp.all => ([r], prev)
  | _ => if prev = some r then ([], prev) else ([r], some r)

/-- The EofA / EofB drain loop: Gosub out; Yield; repeat until the side is
exhausted, each row passing through the output subroutine. -/
def drainSide (op : SetOp) (prev : Option Row) : List Row → List Row
  | [] => []
  | r :: rs =>
      let o := outputRow op prev r
      o.1 ++ drainSide op o.2 rs

/-- The merge driver of multiSelectOrderBy.  cmp is the three-way
comparison under the merge key (OP_Compare with the permuted key_def).
The first list holds the pending rows of coroutine A (left term), the
second those of coroutine B (right term), prev is the regPrev state of the
shared duplicate-suppression buffer. -/
def mergeRun (op : SetOp) (cmp : Row → Row → Ordering) :
    List Row → List Row → Option Row → List Row
  | [], bs, prev =>
      if op = SetOp.except ∨ op = SetOp.intersect then []
      else drainSide op prev bs
  | a :: as_, [], prev =>
      if op = SetOp.intersect then []
      else drainSide op prev (a :: as_)
  | a :: as_, b :: bs, prev =>
      if cmp a b = Ordering.lt then
        if op = SetOp.intersect then mergeRun op cmp as_ (b :: bs) prev
        else
          (outputRow op prev a).1 ++
            mergeRun op cmp as_ (b :: bs) (outputRow op prev a).2
      else if cmp a b = Ordering.eq then
        if op = SetOp.all ∨ op = SetOp.intersect then
          (outputRow op prev a).1 ++
            mergeRun op cmp as_ (b :: bs) (outputRow op prev a).2
        else mergeRun op cmp as_ (b :: bs) prev
      else
        if op = SetOp.all ∨ op = SetOp.union then
          (outputRow op prev b).1 ++
            mergeRun op cmp (a :: as_) bs (outputRow op prev b).2
        else mergeRun op cmp (a :: as_) bs prev
  termination_by as_ bs _ => as_.length + bs.length

/-! ### LIMIT / OFFSET runtime (computeLimitRegisters, codeOffset,
selectInnerLoop)

computeLimitRegisters loads the LIMIT value into register iLimit and, when
the value is the literal 0 (or, for a non-literal expression, when OP_IfNot
sees the value 0), jumps straight to iBreak, producing no rows.  codeOffset
emits OP_IfPos iOffset, iContinue, 1: if the offset counter is positive it
is decremented and the row is skipped.  At the bottom of selectInnerLoop,
OP_DecrJumpZero iLimit, iBreak decrements the limit counter and breaks out
of the scan when it reaches exactly zero.  Counter arithmetic is modelled
from the spec on mathematical integers (the interpreter is outside this
repository). -/

/-- One scan loop over the result sequence with active LIMIT and OFFSET
counters: OP_IfPos on the offset (skip and decrement while positive),
then the row is routed, then OP_DecrJumpZero on the limit (break on exact
zero after decrementing). -/
def limitLoop : List Row → Int → Int → List Row
  | [], _, _ => []
  | r :: rs, lim, off =>
      if 0 < off then limitLoop rs lim (off - 1)
      else if lim - 1 = 0 then [r]
      else r :: limitLoop rs (lim - 1) off

/-- Output of the emitted program for a query with LIMIT n and OFFSET m
applied to the result sequence rows: computeLimitRegisters jumps to iBreak
when the limit value is 0 (literal case: OP_Goto after OP_Integer 0;
expression case: OP_IfNot), otherwise the scan runs with the two
counters. -/
def runLimitOffset (rows : List Row) (n m : Int) : List Row :=
  if n = 0 then [] else limitLoop rows n m

/-! ### Scalar subquery with the single-row requirement (SRT_Mem +
SF_SingleRow)

For a scalar subquery that must produce exactly one row,
computeLimitRegisters (branch selFlags & SF_SingleRow, EP_System limit)
loads the literal 2 into the limit register instead of the system LIMIT 1,
so that an overflow of the real limit 1 can be detected afterwards.  The
scan then runs with OP_DecrJumpZero on that register, SRT_Mem storing each
produced row into the fixed destination register.  After the loop,
vdbe_code_raise_on_multiple_rows emits OP_Integer 0, r1; OP_Ne r1,
end_mark, limit_reg; OP_Halt "SQL error: Expression subquery returned more
than 1 row": execution jumps to end_mark (no fault) exactly when the limit
register differs from 0, and halts with the error otherwise. -/

/-- The scan loop of a single-row scalar subquery: each produced row is
stored into the SRT_Mem register (last write wins), the limit counter
(initialised to 2) is decremented, and the loop breaks when it reaches 0.
Returns the final limit counter and the stored register. -/
def scalarLoop : List Row → Int → Option Row → Int × Option Row
  | [], lim, st => (lim, st)
  | r :: rs, lim, st =>
      let _ := st
      if lim - 1 = 0 then (lim - 1, some r)
      else scalarLoop rs (lim - 1) (some r)

/-- Runtime outcome of the program emitted for a scalar subquery with the
single-row flag: run the scan with limit counter 2, then apply the check of
vdbe_code_raise_on_multiple_rows: fault exactly when the counter ended at
0. -/
def runScalarSingleRow (rows : List Row) : Except String (Option Row) :=
  let res := scalarLoop rows 2 none
  if res.1 = 0 then
    Except.error "SQL error: Expression subquery returned more than 1 row"
  else Except.ok res.2

/-! ### Code-emission model

A small model of the Vdbe / Parse state used by the code-generation
routines whose claims are about the emitted instructions themselves
(computeLimitRegisters, resetAccumulator, vdbe_code_raise_on_multiple_rows,
the subquery-materialization block of sqlite3Select, and the count(*) fast
path). -/

/-- The opcodes appearing in the modelled fragments of select.c. -/
inductive LOp : Type
  | integer (val : Int) (dest : Nat)
  | goto0 (target : Nat)
  | mustBeInt (reg : Nat)
  | ifNot (reg : Nat) (target : Nat)
  | eq0 (r1 : Nat) (target : Nat) (r2 : Nat)
  | ne0 (r1 : Nat) (target : Nat) (r2 : Nat)
  | halt (errmsg : String)
  | offsetLimit (limReg : Nat) (sumReg : Nat) (offReg : Nat)
  | exprCode (exprId : Nat) (dest : Nat)
  | openTEphemeralKeyed (cursor : Nat) (ncol : Nat) (key : List Nat)
  | once
  | fillBody
  | ret (reg : Nat)
  | openCursor (cursor : Nat) (spaceId : Nat)
  | count (cursor : Nat) (dest : Nat)
  | close (cursor : Nat)
deriving DecidableEq

/-- The slice of struct Parse that the modelled emitters touch. -/
structure ParseSt : Type where
  nMem : Nat
  nTab : Nat
  nErr : Nat
  errMsg : Option String
  code : List LOp
deriving DecidableEq

/-- sqlite3VdbeAddOp and friends: append one instruction. -/
def emitOp (ps : ParseSt) (op : LOp) : ParseSt :=
  { ps with code := ps.code ++ [op] }

/-- sqlite3ErrorMsg: record a diagnostic and bump the error counter. -/
def parseError (ps : ParseSt) (msg : String) : ParseSt :=
  { ps with nErr := ps.nErr + 1, errMsg := some msg }

/-! ### computeLimitRegisters (select.c) -/

/-- The slice of struct Expr that computeLimitRegisters inspects on a
LIMIT / OFFSET expression: sqlite3ExprIsInteger (a literal integer value,
if any), the EP_Collate flag and the EP_System flag. -/
structure LimExpr : Type where
  intVal : Option Int
  hasCollate : Bool
  isSystem : Bool
  exprId : Nat
deriving DecidableEq

/-- The slice of struct Select that computeLimitRegisters touches:
iLimit / iOffset registers (0 when unassigned), the LIMIT / OFFSET
expressions, the SF_SingleRow and SF_FixedLimit bits and the nSelectRow
estimate. -/
structure SelSt : Type where
  iLimit : Nat
  iOffset : Nat
  pLimit : Option LimExpr
  pOffset : Option LimExpr
  singleRow : Bool
  fixedLimit : Bool
  nSelectRow : Int
deriving DecidableEq

/-- Translation of computeLimitRegisters (select.c).  logEst stands for
sqlite3LogEst, which lives outside this file; it is passed as a parameter
so the row-estimate bookkeeping keeps its structure.  The function returns
the updated Parse and Select state; the first conditional is the early
return in the C code: "if (p->iLimit) return;". -/
def computeLimitRegisters (logEst : Nat → Int) (ps : ParseSt) (s : SelSt)
    (iBreak : Nat) : ParseSt × SelSt :=
  if s.iLimit ≠ 0 then (ps, s)
  else
    match s.pLimit with
    | none => (ps, s)
    | some le =>
      if le.hasCollate || (match s.pOffset with
           | some oe => oe.hasCollate
           | none => false) then
        (parseError ps "near \"COLLATE\": syntax error", s)
      else
        let iLimit := ps.nMem + 1
        let ps1 := { ps with nMem := ps.nMem + 1 }
        let s1 := { s with iLimit := iLimit }
        let step2 : ParseSt × SelSt :=
          match le.intVal with
          | some n =>
              let ps2 := emitOp ps1 (LOp.integer n iLimit)
              if n = 0 then (emitOp ps2 (LOp.goto0 iBreak), s1)
              else if 0 ≤ n ∧ logEst n.toNat < s1.nSelectRow then
                (ps2, { s1 with nSelectRow := logEst n.toNat,
                                fixedLimit := true })
              else (ps2, s1)
          | none =>
              let ps2 := emitOp ps1 (LOp.exprCode le.exprId iLimit)
              let ps2 := emitOp ps2 (LOp.mustBeInt iLimit)
              (emitOp ps2 (LOp.ifNot iLimit iBreak), s1)
        let ps2 := step2.1
        let s2 := step2.2
        let step3 : ParseSt × SelSt :=
          if s2.singleRow then
            if le.isSystem then
              (emitOp ps2 (LOp.integer 2 iLimit), s2)
            else
              let r1 := ps2.nMem + 1
              let ps3 := { ps2 with nMem := ps2.nMem + 1 }
              let ps3 := emitOp ps3 (LOp.integer 1 r1)
              let noErr := iBreak + 1
              let ps3 := emitOp ps3 (LOp.eq0 iLimit noErr r1)
              let ps3 := emitOp ps3
                (LOp.halt "SQL error: Expression subquery could be limited only with 1")
              (ps3, { s2 with singleRow := false })
          else (ps2, s2)
        let ps3 := step3.1
        let s3 := step3.2
        match s3.pOffset with
        | some oe =>
            let iOffset := ps3.nMem + 1
            let ps4 := { ps3 with nMem := ps3.nMem + 2 }
            let s4 := { s3 with iOffset := iOffset }
            let ps4 := emitOp ps4 (LOp.exprCode oe.exprId iOffset)
            let ps4 := emitOp ps4 (LOp.mustBeInt iOffset)
            let ps4 := emitOp ps4 (LOp.offsetLimit iLimit (iOffset + 1) iOffset)
            (ps4, s4)
        | none => (ps3, s3)

/-! ### vdbe_code_raise_on_multiple_rows (select.c) -/

/-- Translation of vdbe_code_raise_on_multiple_rows: emit OP_Integer 0, r1;
OP_Ne r1, end_mark, limit_reg; OP_Halt with the overflow diagnostic.  The
routine only emits instructions: it reports no compile-time error. -/
def vdbe_code_raise_on_multiple_rows (ps : ParseSt) (limitReg : Nat)
    (endMark : Nat) : ParseSt :=
  let r1 := ps.nMem + 1
  let ps1 := { ps with nMem := ps.nMem + 1 }
  let ps1 := emitOp ps1 (LOp.integer 0 r1)
  let ps1 := emitOp ps1 (LOp.ne0 r1 endMark limitReg)
  emitOp ps1
    (LOp.halt "SQL error: Expression subquery returned more than 1 row")

/-! ### resetAccumulator: DISTINCT aggregate handling (select.c) -/

/-- The slice of struct AggInfo_func that the DISTINCT branch of
resetAccumulator touches: the dedup cursor number iDistinct (negative:
no dedup relation) and the argument expression list of the call
(pExpr->x.pList; the empty list models a null pList). -/
structure AggFuncSt : Type where
  iDistinct : Int
  argExprs : List Nat
deriving DecidableEq

/-- Translation of the per-function DISTINCT branch of resetAccumulator:
when the call has a dedup relation (iDistinct >= 0) and its argument list
does not consist of exactly one expression, report the semantic error and
set iDistinct to -1; with exactly one argument, open a one-column ephemeral
relation on cursor iDistinct keyed by that argument
(sql_expr_list_to_key_def over the argument list). -/
def resetAccumulatorDistinct (ps : ParseSt) (f : AggFuncSt) :
    ParseSt × AggFuncSt :=
  if 0 ≤ f.iDistinct then
    if f.argExprs.length ≠ 1 then
      (parseError ps "DISTINCT aggregates must have exactly one argument",
       { f with iDistinct := -1 })
    else
      (emitOp ps (LOp.openTEphemeralKeyed f.iDistinct.toNat 1 f.argExprs), f)
  else (ps, f)

/-! ### Materialized FROM-clause subqueries and OP_Once (sqlite3Select)

When a FROM-clause subquery is not compiled as a coroutine, sqlite3Select
generates a filling subroutine: OP_Integer 0, regReturn at topAddr, then —
only if the subquery is not correlated — an OP_Once guard, then the body
that fills the ephemeral table, then OP_Return regReturn; the jump target
of the OP_Once is fixed up (sqlite3VdbeJumpHere) to the address of the
OP_Return, so a second execution of the guard skips the body entirely. -/

/-- The instruction sequence of the filling subroutine, translated from the
else-branch of the subquery compilation loop in sqlite3Select.  The body of
the subquery is abstracted as the marker instruction fillBody. -/
def fillSubCode (isCorrelated : Bool) (regReturn : Nat) : List LOp :=
  [LOp.integer 0 regReturn] ++
    (if isCorrelated then [] else [LOp.once]) ++
    [LOp.fillBody] ++ [LOp.ret regReturn]

/-- Runtime state of the filling subroutine: whether its OP_Once has
already fired, and how many times the body has executed. -/
structure OnceSt : Type where
  onceDone : Bool
  bodyRuns : Nat
deriving DecidableEq

/-- Modelled from the spec: execution of the filling subroutine
instructions.  OP_Once falls through on first execution and jumps to its
fixed-up target — the OP_Return — on every later one; fillBody counts one
execution of the subquery body; OP_Return ends the invocation. -/
def runFillOps : List LOp → OnceSt → OnceSt
  | [], st => st
  | LOp.once :: rest, st =>
      if st.onceDone then st
      else runFillOps rest { st with onceDone := true }
  | LOp.fillBody :: rest, st =>
      runFillOps rest { st with bodyRuns := st.bodyRuns + 1 }
  | LOp.ret _ :: _, st => st
  | _ :: rest, st => runFillOps rest st

/-- One OP_Gosub invocation of the filling subroutine: execution enters at
addrFillSub = topAddr + 1, i.e. just past the OP_Integer. -/
def invokeFillSub (isCorrelated : Bool) (regReturn : Nat) (st : OnceSt) :
    OnceSt :=
  runFillOps ((fillSubCode isCorrelated regReturn).drop 1) st

/-- k successive invocations of the filling subroutine. -/
def invokeFillSubN (isCorrelated : Bool) (regReturn : Nat) :
    Nat → OnceSt → OnceSt
  | 0, st => st
  | k + 1, st =>
      invokeFillSubN isCorrelated regReturn k
        (invokeFillSub isCorrelated regReturn st)

/-! ### The count(*) fast path (is_simple_count and sqlite3Select) -/

/-- The slice of struct Select / struct AggInfo that is_simple_count
inspects: presence of a WHERE clause, result-column count, FROM-term
count, whether the single FROM term is a subquery, the space id of the
named table, whether the single result expression is TK_AGG_FUNCTION,
the number of analysed aggregate calls, whether the first call is the
built-in count, and the EP_Distinct flag on the expression.  GROUP BY is
absent by the assertion at the top of is_simple_count. -/
structure CountSel : Type where
  hasWhere : Bool
  nResultExpr : Nat
  nSrc : Nat
  srcIsSelect : Bool
  srcSpaceId : Nat
  exprIsAggFunc : Bool
  nAggFunc : Nat
  firstFuncIsCount : Bool
  exprHasDistinct : Bool
deriving DecidableEq

/-- Translation of is_simple_count (select.c): returns the queried space
exactly when the statement has the shape SELECT count(*) FROM tbl with a
concrete base table, no WHERE clause, a single non-DISTINCT count as the
only result column. -/
def is_simple_count (sel : CountSel) : Option Nat :=
  if sel.hasWhere || sel.nResultExpr ≠ 1 || sel.nSrc ≠ 1 || sel.srcIsSelect
  then none
  else if !sel.exprIsAggFunc then none
  else if sel.nAggFunc = 0 then none
  else if !sel.firstFuncIsCount then none
  else if sel.exprHasDistinct then none
  else some sel.srcSpaceId

/-- The two strategies of the aggregate-without-GROUP-BY branch of
sqlite3Select: the direct-cardinality program, or the general scan loop. -/
inductive AggPlan : Type
  | countFast (ops : List LOp)
  | generalScan
deriving DecidableEq

/-- Translation of the dispatch in sqlite3Select for an aggregate query
without GROUP BY: when is_simple_count matches, open a cursor on the
space, execute OP_Count into the accumulator register of the first
aggregate call, close the cursor — no scan loop is emitted. -/
def compileAggNoGroupBy (ps : ParseSt) (sel : CountSel) (resultMem : Nat) :
    ParseSt × AggPlan :=
  match is_simple_count sel with
  | some sid =>
      let cursor := ps.nTab
      let ps1 := { ps with nTab := ps.nTab + 1 }
      let ops := [LOp.openCursor cursor sid, LOp.count cursor resultMem,
                  LOp.close cursor]
      (ops.foldl emitOp ps1, AggPlan.countFast ops)
  | none => (ps, AggPlan.generalScan)

/-- Runtime state for the count program: open cursors and registers. -/
structure CountMachine : Type where
  cursors : Nat → Option Nat
  regs : Nat → Int

/-- Modelled from the spec: the runtime effect of the three opcodes of the
direct-cardinality program.  OP_Count stores the number of rows of the
space the cursor is open on, without visiting the rows. -/
def stepCount (db : Db) (m : CountMachine) : LOp → CountMachine
  | LOp.openCursor c sid =>
      { m with cursors := fun c2 => if c2 = c then some sid else m.cursors c2 }
  | LOp.count c dest =>
      { m with regs := fun r =>
          if r = dest then
            match m.cursors c with
            | some sid => ((db sid).length : Int)
            | none => m.regs r
          else m.regs r }
  | LOp.close c =>
      { m with cursors := fun c2 => if c2 = c then none else m.cursors c2 }
  | _ => m

/-- Run a straight-line count program. -/
def runCountProgram (db : Db) (ops : List LOp) (m : CountMachine) :
    CountMachine :=
  ops.foldl (stepCount db) m

/-! ### Subquery flattening (flattenSubquery, substExpr, substSelect)

A small expression / query language whose shapes are exactly the pieces the
non-aggregate, non-compound flattening path of flattenSubquery touches: the
result-column list, the WHERE clause and the FROM list of the outer query
and of the subquery.  The rewrite below is translated from the flattening
loop of flattenSubquery (single iteration, subqueryIsAgg == false): the
FROM slot of the subquery is replaced by the subquery FROM terms; the
duplicated subquery WHERE is conjoined in front of the outer WHERE
(pParent->pWhere = sqlite3ExprAnd(db, pWhere, pParent->pWhere)); then
substSelect replaces every reference to the subquery cursor iParent with a
copy of the corresponding result expression of the subquery.  The
evaluation semantics of expressions and of the nested-loop FROM iteration
is modelled from the spec (the interpreter and the scan service are outside
this repository). -/

/-- Scalar expressions: column reference (cursor, column index), integer
literal, addition, comparison and conjunction. -/
inductive Expr0 : Type
  | lit (n : Int)
  | col (cur : Nat) (i : Nat)
  | add (a b : Expr0)
  | eqx (a b : Expr0)
  | andx (a b : Expr0)
deriving DecidableEq

/-- Cursors referenced by an expression. -/
def refsE : Expr0 → List Nat
  | Expr0.lit _ => []
  | Expr0.col c _ => [c]
  | Expr0.add a b => refsE a ++ refsE b
  | Expr0.eqx a b => refsE a ++ refsE b
  | Expr0.andx a b => refsE a ++ refsE b

/-- Column indices with which an expression references the cursor c. -/
def colIdxAt (c : Nat) : Expr0 → List Nat
  | Expr0.lit _ => []
  | Expr0.col c2 i => if c2 = c then [i] else []
  | Expr0.add a b => colIdxAt c a ++ colIdxAt c b
  | Expr0.eqx a b => colIdxAt c a ++ colIdxAt c b
  | Expr0.andx a b => colIdxAt c a ++ colIdxAt c b

/-- Translation of substExpr (select.c): replace every reference to a
column of cursor iTable with a copy of the corresponding entry of the
subquery result list pEList. -/
def substE (iTable : Nat) (pEList : List Expr0) : Expr0 → Expr0
  | Expr0.lit n => Expr0.lit n
  | Expr0.col c i =>
      if c = iTable then (pEList.getD i (Expr0.lit 0)) else Expr0.col c i
  | Expr0.add a b => Expr0.add (substE iTable pEList a) (substE iTable pEList b)
  | Expr0.eqx a b => Expr0.eqx (substE iTable pEList a) (substE iTable pEList b)
  | Expr0.andx a b =>
      Expr0.andx (substE iTable pEList a) (substE iTable pEList b)

/-- substExpr on an optional WHERE clause. -/
def substW (iTable : Nat) (pEList : List Expr0) : Option Expr0 → Option Expr0
  | none => none
  | some e => some (substE iTable pEList e)

/-- Translation of sqlite3ExprAnd: conjoin two optional predicates,
returning the other operand when one is absent. -/
def exprAnd : Option Expr0 → Option Expr0 → Option Expr0
  | none, b => b
  | some a, none => some a
  | some a, some b => some (Expr0.andx a b)

/-- A simple (non-compound, non-aggregate) SELECT term as the flattening
candidate: base-table FROM terms (cursor, space id), optional WHERE,
result-column expressions. -/
structure SimpleSel : Type where
  fromT : List (Nat × Nat)
  whereE : Option Expr0
  cols : List Expr0
deriving DecidableEq

/-- One FROM term of the outer query: a base table or an embedded
subquery (struct SrcList_item: exactly one of the two is set). -/
inductive FromTerm : Type
  | tbl (cur : Nat) (sid : Nat)
  | sub (cur : Nat) (q : SimpleSel)
deriving DecidableEq

/-- The outer query of the flattening rewrite. -/
structure OuterSel : Type where
  fromT : List FromTerm
  whereE : Option Expr0
  cols : List Expr0
deriving DecidableEq

/-- Translation of the flattening loop of flattenSubquery for a
non-aggregate, non-compound subquery sitting in the first FROM slot
(iFrom = 0): splice the subquery FROM terms into the slot, conjoin the
duplicated subquery WHERE in front of the outer WHERE, then substitute the
subquery result expressions for the references to the subquery cursor in
the whole outer query (substSelect over pEList and pWhere).  On any other
shape the routine leaves the query unchanged (flattening not attempted). -/
def flattenHead (p : OuterSel) : OuterSel :=
  match p.fromT with
  | FromTerm.sub iParent q :: rest =>
      { fromT := (q.fromT.map (fun t => FromTerm.tbl t.1 t.2)) ++ rest
        whereE := substW iParent q.cols (exprAnd q.whereE p.whereE)
        cols := p.cols.map (substE iParent q.cols) }
  | _ => p

/-! Evaluation semantics (modelled from the spec). -/

/-- An environment binds each cursor to its current row. -/
def Env : Type := Nat → Row

/-- Bind cursor c to row r. -/
def updE (env : Env) (c : Nat) (r : Row) : Env :=
  fun c2 => if c2 = c then r else env c2

/-- The row of absent bindings: every column reads as 0. -/
def baseEnv : Env := fun _ => []

/-- Modelled from the spec: expression evaluation.  A column reference
reads the bound row (0 past the end); comparison and conjunction produce
0 / 1. -/
def evalE (env : Env) : Expr0 → Int
  | Expr0.lit n => n
  | Expr0.col c i => (env c).getD i 0
  | Expr0.add a b => evalE env a + evalE env b
  | Expr0.eqx a b => if evalE env a = evalE env b then 1 else 0
  | Expr0.andx a b =>
      if evalE env a ≠ 0 ∧ evalE env b ≠ 0 then 1 else 0

/-- A WHERE clause accepts the environment when it is absent or evaluates
to a nonzero value. -/
def evalW (env : Env) : Option Expr0 → Bool
  | none => true
  | some e => evalE env e ≠ 0

/-- Nested-loop iteration over base-table FROM terms: the list of
environments, in scan order. -/
def envsOfT (db : Db) (env : Env) : List (Nat × Nat) → List Env
  | [] => [env]
  | t :: ts =>
      (db t.2).flatMap (fun r => envsOfT db (updE env t.1 r) ts)

/-- Result rows of a simple SELECT term, evaluated from env0 (base
environment: FROM subqueries are not correlated). -/
def evalSimple (db : Db) (q : SimpleSel) : List Row :=
  ((envsOfT db baseEnv q.fromT).filter (fun env => evalW env q.whereE)).map
    (fun env => q.cols.map (evalE env))

/-- Nested-loop iteration over the outer FROM terms: a subquery term is
materialized (its rows computed by evalSimple) and iterated like a table. -/
def envsOfF (db : Db) (env : Env) : List FromTerm → List Env
  | [] => [env]
  | FromTerm.tbl c sid :: ts =>
      (db sid).flatMap (fun r => envsOfF db (updE env c r) ts)
  | FromTerm.sub c q :: ts =>
      (evalSimple db q).flatMap (fun r => envsOfF db (updE env c r) ts)

/-- Result rows of the outer query. -/
def evalOuter (db : Db) (p : OuterSel) : List Row :=
  ((envsOfF db baseEnv p.fromT).filter (fun env => evalW env p.whereE)).map
    (fun env => p.cols.map (evalE env))

/-! ### Auxiliary definitions used by the statements and proofs -/

/-- Full-row lexicographic comparison: a concrete instance of the merge
key comparison of multiSelectOrderBy for the operators whose ORDER BY has
been extended to cover every result column. -/
def cmpRow : Row → Row → Ordering
  | [], [] => Ordering.eq
  | [], _ :: _ => Ordering.lt
  | _ :: _, [] => Ordering.gt
  | a :: as_, b :: bs =>
      match compare a b with
      | Ordering.eq => cmpRow as_ bs
      | o => o

/-- The cursor of a FROM term (SrcList_item.iCursor). -/
def curOfF : FromTerm → Nat
  | FromTerm.tbl c _ => c
  | FromTerm.sub c _ => c

/-- All sequences of (cursor, row) bindings a nested-loop iteration over
the FROM terms can choose, in iteration order.  FROM subqueries are not
correlated, so the choices do not depend on the incoming environment. -/
def bindsOfF (db : Db) : List FromTerm → List (List (Nat × Row))
  | [] => [[]]
  | FromTerm.tbl c sid :: ts =>
      (db sid).flatMap (fun r => (bindsOfF db ts).map (fun bs => (c, r) :: bs))
  | FromTerm.sub c q :: ts =>
      (evalSimple db q).flatMap
        (fun r => (bindsOfF db ts).map (fun bs => (c, r) :: bs))

/-- Apply a sequence of bindings to an environment, first binding first. -/
def applyBinds (env : Env) : List (Nat × Row) → Env
  | [] => env
  | b :: bs => applyBinds (updE env b.1 b.2) bs

/-! Witness fixtures: concrete states used to instantiate the theorems. -/

/-- An empty parse state. -/
def ps0 : ParseSt := { nMem := 0, nTab := 0, nErr := 0, errMsg := none, code := [] }

/-- Example database: space 1 is the relation t1 = {1, 2, 3}. -/
def exDb : Db := fun sid => if sid = 1 then [[1], [2], [3]] else []

/-- SELECT count(*) FROM t1 in the shape is_simple_count inspects. -/
def exCountSel : CountSel :=
  { hasWhere := false, nResultExpr := 1, nSrc := 1, srcIsSelect := false,
    srcSpaceId := 1, exprIsAggFunc := true, nAggFunc := 1,
    firstFuncIsCount := true, exprHasDistinct := false }

/-- An empty count-program machine. -/
def cm0 : CountMachine := { cursors := fun _ => none, regs := fun _ => 0 }

/-- Example subquery: SELECT x+3 FROM t1 WHERE x = 2 (cursor 7 on t1). -/
def exSubSel : SimpleSel :=
  { fromT := [(7, 1)],
    whereE := some (Expr0.eqx (Expr0.col 7 0) (Expr0.lit 2)),
    cols := [Expr0.add (Expr0.col 7 0) (Expr0.lit 3)] }

/-- Example outer query over the subquery (cursor 9):
SELECT a+100 FROM (SELECT x+3 AS a FROM t1 WHERE x = 2) WHERE a = 5. -/
def exOuterSel : OuterSel :=
  { fromT := [FromTerm.sub 9 exSubSel],
    whereE := some (Expr0.eqx (Expr0.col 9 0) (Expr0.lit 5)),
    cols := [Expr0.add (Expr0.col 9 0) (Expr0.lit 100)] }

/-- A Select state whose limit register is already assigned. -/
def exSelSt : SelSt :=
  { iLimit := 4, iOffset := 0,
    pLimit := some { intVal := some 10, hasCollate := false,
                     isSystem := false, exprId := 0 },
    pOffset := none, singleRow := false, fixedLimit := false,
    nSelectRow := 20 }

/-- A DISTINCT aggregate call with exactly one argument. -/
def exAggFunc : AggFuncSt := { iDistinct := 3, argExprs := [7] }

/-- A DISTINCT aggregate call with two arguments. -/
def exAggFuncBad : AggFuncSt := { iDistinct := 3, argExprs := [7, 8] }

/-! ### Theorems -/

/-- Claim C10: computeLimitRegisters is idempotent on an already-limited
query: when the limit register of the Select is already assigned (iLimit
nonzero), the call returns immediately — no instruction is emitted, and
neither the Parse state nor the Select state changes. -/
theorem computeLimitRegisters_idempotent (logEst : Nat → Int) (ps : ParseSt)
    (s : SelSt) (iBreak : Nat) (h : s.iLimit ≠ 0) :
    computeLimitRegisters logEst ps s iBreak = (ps, s) := by
  simp [computeLimitRegisters, h]

/-- Witness for C10: a Select whose iLimit is already 4 passes through
computeLimitRegisters unchanged. -/
theorem computeLimitRegisters_idempotent_witness :
    computeLimitRegisters (fun _ => 0) ps0 exSelSt 5 = (ps0, exSelSt) :=
  computeLimitRegisters_idempotent (fun _ => 0) ps0 exSelSt 5 (by decide)

/-- Claim C9: in resetAccumulator, a DISTINCT aggregate call (iDistinct
not negative) whose argument list is not exactly one expression raises the
semantic error "DISTINCT aggregates must have exactly one argument" and
disables the dedup relation (iDistinct becomes -1); with exactly one
argument, a one-column ephemeral relation keyed by that argument is opened
on cursor iDistinct and the call is left unchanged. -/
theorem resetAccumulator_distinct_cases (ps : ParseSt) (f : AggFuncSt)
    (h : 0 ≤ f.iDistinct) :
    (f.argExprs.length ≠ 1 →
      (resetAccumulatorDistinct ps f).1.nErr = ps.nErr + 1 ∧
      (resetAccumulatorDistinct ps f).1.errMsg =
        some "DISTINCT aggregates must have exactly one argument" ∧
      (resetAccumulatorDistinct ps f).2.iDistinct = -1) ∧
    (∀ e, f.argExprs = [e] →
      (resetAccumulatorDistinct ps f).1.code =
        ps.code ++ [LOp.openTEphemeralKeyed f.iDistinct.toNat 1 [e]] ∧
      (resetAccumulatorDistinct ps f).2 = f) := by
  constructor
  · intro hlen
    simp [resetAccumulatorDistinct, h, hlen, parseError]
  · intro e he
    simp [resetAccumulatorDistinct, h, he, emitOp]

/-- Witness for C9: a two-argument DISTINCT call errors out, and a
one-argument DISTINCT call opens its one-column dedup relation. -/
theorem resetAccumulator_distinct_cases_witness :
    ((resetAccumulatorDistinct ps0 exAggFuncBad).1.nErr = 1 ∧
      (resetAccumulatorDistinct ps0 exAggFuncBad).2.iDistinct = -1) ∧
    (resetAccumulatorDistinct ps0 exAggFunc).1.code =
      [LOp.openTEphemeralKeyed 3 1 [7]] := by
  refine ⟨⟨?_, ?_⟩, ?_⟩
  · exact ((resetAccumulator_distinct_cases ps0 exAggFuncBad (by decide)).1
      (by decide)).1
  · exact ((resetAccumulator_distinct_cases ps0 exAggFuncBad (by decide)).1
      (by decide)).2.2
  · exact (((resetAccumulator_distinct_cases ps0 exAggFunc (by decide)).2 7
      (by decide)).1).trans (by decide)

/-- Claim C8: the filling subroutine of a non-correlated materialized
FROM-clause subquery carries an OP_Once guard, and across any number of
invocations its body executes at most once (exactly once as soon as it is
invoked at all). -/
theorem materialized_subquery_once (regReturn : Nat) :
    (LOp.once ∈ fillSubCode false regReturn) ∧
    (∀ k : Nat,
      (invokeFillSubN false regReturn k
        { onceDone := false, bodyRuns := 0 }).bodyRuns = min k 1) := by
  constructor
  · simp [fillSubCode]
  · intro k
    cases k with
    | zero => simp [invokeFillSubN]
    | succ k =>
        have hstep :
            invokeFillSub false regReturn
              { onceDone := false, bodyRuns := 0 } =
              { onceDone := true, bodyRuns := 1 } := by
          simp [invokeFillSub, fillSubCode, runFillOps]
        have hfix : ∀ j : Nat,
            invokeFillSubN false regReturn j
              { onceDone := true, bodyRuns := 1 } =
              { onceDone := true, bodyRuns := 1 } := by
          intro j
          induction j with
          | zero => simp [invokeFillSubN]
          | succ j ih =>
              have hstep2 :
                  invokeFillSub false regReturn
                    { onceDone := true, bodyRuns := 1 } =
                    { onceDone := true, bodyRuns := 1 } := by
                simp [invokeFillSub, fillSubCode, runFillOps]
              simp [invokeFillSubN, hstep2, ih]
        simp [invokeFillSubN, hstep, hfix]

/-- Claim C5: the program emitted for a scalar subquery that must produce
exactly one row (SRT_Mem with SF_SingleRow) faults at runtime exactly when
the subquery produces more than one row — zero or one rows succeed — and
the check itself (vdbe_code_raise_on_multiple_rows) reports no
compile-time error. -/
theorem scalar_single_row_fault_iff (rows : List Row) :
    ((runScalarSingleRow rows).isOk = true ↔ rows.length ≤ 1) ∧
    (∀ (ps : ParseSt) (limitReg endMark : Nat),
      (vdbe_code_raise_on_multiple_rows ps limitReg endMark).nErr = ps.nErr) := by
  constructor
  · match rows with
    | [] => simp [runScalarSingleRow, scalarLoop, Except.isOk, Except.toBool]
    | [r] => simp [runScalarSingleRow, scalarLoop, Except.isOk, Except.toBool]
    | r1 :: r2 :: rest =>
        simp [runScalarSingleRow, scalarLoop, Except.isOk, Except.toBool]
  · intro ps limitReg endMark
    simp [vdbe_code_raise_on_multiple_rows, emitOp]

/-- Helper for C6: the scan loop with a nonzero limit counter n and offset
counter m produces the slice drop / take of the input sequence, with a
negative n never stopping the scan. -/
theorem limitLoop_spec (rows : List Row) :
    ∀ n m : Int, n ≠ 0 →
      limitLoop rows n m =
        if n < 0 then rows.drop m.toNat else (rows.drop m.toNat).take n.toNat := by
  induction rows with
  | nil => intro n m _; simp [limitLoop]
  | cons r rs ih =>
      intro n m hn
      simp only [limitLoop]
      by_cases hm : 0 < m
      · rw [if_pos hm, ih n (m - 1) hn]
        have h1 : m.toNat = (m - 1).toNat + 1 := by omega
        rw [h1, List.drop_succ_cons]
      · have hm0 : m.toNat = 0 := by omega
        rw [if_neg hm, hm0, List.drop_zero]
        by_cases h1 : n - 1 = 0
        · have hn1 : n = 1 := by omega
          subst hn1
          norm_num [List.take_succ_cons]
        · rw [if_neg h1, ih (n - 1) m h1, hm0, List.drop_zero]
          by_cases hneg : n < 0
          · rw [if_pos (by omega : n - 1 < 0), if_pos hneg]
          · rw [if_neg (by omega : ¬ n - 1 < 0), if_neg hneg]
            have htn : n.toNat = (n - 1).toNat + 1 := by omega
            rw [htn, List.take_succ_cons]

/-- Claim C6: for a query with LIMIT n and OFFSET m the emitted program
outputs exactly the rows at positions [max m 0, max m 0 + n) of the result
sequence: with n = 0 it outputs no rows (computeLimitRegisters jumps
straight to the break label), and with n negative it outputs every row
after the first m. -/
theorem runLimitOffset_slice (rows : List Row) (n m : Int) :
    runLimitOffset rows n m =
      if n < 0 then rows.drop m.toNat else (rows.drop m.toNat).take n.toNat := by
  by_cases h0 : n = 0
  · simp [runLimitOffset, h0]
  · rw [runLimitOffset, if_neg h0]
    exact limitLoop_spec rows n m h0

/-- Claim C7: when is_simple_count recognizes SELECT count(*) FROM tbl
(one concrete base table, no WHERE, a single non-DISTINCT count, no GROUP
BY), sqlite3Select compiles the query to the direct-cardinality program —
open cursor, OP_Count, close cursor, with no scan loop — and running that
program stores the row count of the table in the accumulator register. -/
theorem simple_count_fast_path (ps : ParseSt) (sel : CountSel)
    (resultMem : Nat) (db : Db) (sid : Nat)
    (h : is_simple_count sel = some sid) :
    (compileAggNoGroupBy ps sel resultMem).2 =
      AggPlan.countFast
        [LOp.openCursor ps.nTab sid, LOp.count ps.nTab resultMem,
         LOp.close ps.nTab] ∧
    (runCountProgram db
        [LOp.openCursor ps.nTab sid, LOp.count ps.nTab resultMem,
         LOp.close ps.nTab] cm0).regs resultMem = ((db sid).length : Int) := by
  constructor
  · simp [compileAggNoGroupBy, h]
  · simp [runCountProgram, stepCount, cm0]

/-- Witness for C7: SELECT count(*) FROM t1 for t1 = {1,2,3} matches the
fast path and the direct-cardinality program computes 3. -/
theorem simple_count_fast_path_witness :
    (compileAggNoGroupBy ps0 exCountSel 1).2 =
      AggPlan.countFast
        [LOp.openCursor 0 1, LOp.count 0 1, LOp.close 0] ∧
    (runCountProgram exDb [LOp.openCursor 0 1, LOp.count 0 1, LOp.close 0]
        cm0).regs 1 = 3 := by
  have h := simple_count_fast_path ps0 exCountSel 1 exDb 1 (by decide)
  refine ⟨?_, ?_⟩
  · exact h.1
  · exact h.2.trans (by decide)

/-- Counterexample to C3 as stated: on a tie (the current rows of both
coroutines compare equal), EXCEPT does not emit the left row — it emits
nothing and merely advances the left side.  With A = B = [[1]] the merge
produces no row at all, while the claim ("UNION and EXCEPT emit only the
left row") predicts the single output [[1]]. -/
theorem merge_tie_except_counterexample :
    mergeRun SetOp.except cmpRow [[1]] [[1]] none = [] ∧
    mergeRun SetOp.except cmpRow [[1]] [[1]] none ≠ [[1]] := by
  have hcmp : cmpRow [1] [1] = Ordering.eq := by decide
  constructor
  · simp [mergeRun, hcmp]
  · simp [mergeRun, hcmp]

/-- Claim C3 (amended): in the ordered-merge evaluator, when the current
rows of the two coroutines compare equal under the merge key, the tie is
resolved per operator as follows: UNION ALL emits the left row at the tie
and the right row subsequently (both rows, no suppression; shown below for
the closing tie); UNION and EXCEPT emit no row at the tie and advance the
left side; INTERSECT emits a row (the left one, subject to the
duplicate-suppression buffer) exactly on such ties, advancing the left
side. -/
theorem merge_tie_behavior (cmp : Row → Row → Ordering) (a b : Row)
    (as_ bs : List Row) (prev : Option Row) (h : cmp a b = Ordering.eq) :
    (mergeRun SetOp.all cmp (a :: as_) (b :: bs) prev =
      a :: mergeRun SetOp.all cmp as_ (b :: bs) prev) ∧
    (mergeRun SetOp.union cmp (a :: as_) (b :: bs) prev =
      mergeRun SetOp.union cmp as_ (b :: bs) prev) ∧
    (mergeRun SetOp.except cmp (a :: as_) (b :: bs) prev =
      mergeRun SetOp.except cmp as_ (b :: bs) prev) ∧
    (mergeRun SetOp.intersect cmp (a :: as_) (b :: bs) prev =
      (outputRow SetOp.intersect prev a).1 ++
        mergeRun SetOp.intersect cmp as_ (b :: bs)
          (outputRow SetOp.intersect prev a).2) ∧
    (mergeRun SetOp.all cmp [a] [b] prev = [a, b]) := by
  refine ⟨?_, ?_, ?_, ?_, ?_⟩
  · simp [mergeRun, h, outputRow]
  · simp [mergeRun, h]
  · simp [mergeRun, h]
  · simp [mergeRun, h]
  · simp [mergeRun, h, outputRow, drainSide]

/-- Witness for C3 (amended): the tie behaviour at the concrete tie
A = B = [[1]] with the full-row comparison. -/
theorem merge_tie_behavior_witness :
    (mergeRun SetOp.all cmpRow [[1]] [[1]] none =
      [1] :: mergeRun SetOp.all cmpRow [] [[1]] none) ∧
    (mergeRun SetOp.union cmpRow [[1]] [[1]] none =
      mergeRun SetOp.union cmpRow [] [[1]] none) ∧
    (mergeRun SetOp.except cmpRow [[1]] [[1]] none =
      mergeRun SetOp.except cmpRow [] [[1]] none) ∧
    (mergeRun SetOp.intersect cmpRow [[1]] [[1]] none =
      (outputRow SetOp.intersect none [1]).1 ++
        mergeRun SetOp.intersect cmpRow [] [[1]]
          (outputRow SetOp.intersect none [1]).2) ∧
    (mergeRun SetOp.all cmpRow [[1]] [[1]] none = [[1], [1]]) :=
  merge_tie_behavior cmpRow [1] [1] [] [] none (by decide)

/-- Counterexample to C4 as stated: when the right (B) coroutine is
exhausted, EXCEPT does not terminate immediately — its EofB subroutine
drains the remaining rows of A.  With A = [[1]] and B = [] the merge
emits [[1]], while the claim predicts no output. -/
theorem merge_eof_except_counterexample :
    mergeRun SetOp.except cmpRow [[1]] [] none = [[1]] ∧
    mergeRun SetOp.except cmpRow [[1]] [] none ≠ [] := by
  constructor
  · simp [mergeRun, drainSide, outputRow]
  · simp [mergeRun, drainSide, outputRow]

/-- Claim C4 (amended): when a coroutine of the ordered merge reaches end
of its rows: on exhaustion of the left side (A), UNION and UNION ALL drain
the right side through the output subroutine while EXCEPT and INTERSECT
terminate immediately; on exhaustion of the right side (B), INTERSECT
terminates immediately while UNION, UNION ALL and EXCEPT drain the left
side. -/
theorem merge_eof_behavior (cmp : Row → Row → Ordering)
    (as_ bs : List Row) (prev : Option Row) :
    (mergeRun SetOp.except cmp [] bs prev = []) ∧
    (mergeRun SetOp.intersect cmp [] bs prev = []) ∧
    (mergeRun SetOp.intersect cmp as_ [] prev = []) ∧
    (mergeRun SetOp.all cmp [] bs prev = drainSide SetOp.all prev bs) ∧
    (mergeRun SetOp.union cmp [] bs prev = drainSide SetOp.union prev bs) ∧
    (mergeRun SetOp.all cmp as_ [] prev = drainSide SetOp.all prev as_) ∧
    (mergeRun SetOp.union cmp as_ [] prev = drainSide SetOp.union prev as_) ∧
    (mergeRun SetOp.except cmp as_ [] prev =
      drainSide SetOp.except prev as_) := by
  refine ⟨?_, ?_, ?_, ?_, ?_, ?_, ?_, ?_⟩
  · simp [mergeRun]
  · simp [mergeRun]
  · cases as_ <;> simp [mergeRun, drainSide]
  · simp [mergeRun]
  · simp [mergeRun]
  · cases as_ <;> simp [mergeRun, drainSide]
  · cases as_ <;> simp [mergeRun, drainSide]
  · cases as_ <;> simp [mergeRun, drainSide]

/-- Helper for C1: OP_IdxInsert realizes Finset insertion on the key set. -/
theorem idxInsert_toFinset (t : List Row) (r : Row) :
    (idxInsert t r).toFinset = insert r t.toFinset := by
  ext x
  by_cases h : r ∈ t
  · simp [idxInsert, h]
  · simp [idxInsert, h]
    tauto

/-- Helper for C1: OP_IdxInsert keeps the ephemeral table duplicate-free. -/
theorem idxInsert_nodup (t : List Row) (r : Row) (h : t.Nodup) :
    (idxInsert t r).Nodup := by
  by_cases hr : r ∈ t
  · simpa [idxInsert, hr] using h
  · rw [idxInsert, if_neg hr]
    refine h.append (List.nodup_singleton r) ?_
    intro a ha
    simp only [List.mem_singleton]
    intro hae
    exact hr (hae ▸ ha)

/-- Helper for C1: filling via SRT_Union computes the union of key sets. -/
theorem fillUnion_toFinset (A : List Row) :
    ∀ t : List Row, (fillUnion t A).toFinset = t.toFinset ∪ A.toFinset := by
  induction A with
  | nil => intro t; simp [fillUnion]
  | cons a as_ ih =>
      intro t
      have hstep : fillUnion t (a :: as_) = fillUnion (idxInsert t a) as_ := rfl
      rw [hstep, ih (idxInsert t a), idxInsert_toFinset]
      ext x
      simp
      try tauto

/-- Helper for C1: filling via SRT_Union keeps the table duplicate-free. -/
theorem fillUnion_nodup (A : List Row) :
    ∀ t : List Row, t.Nodup → (fillUnion t A).Nodup := by
  induction A with
  | nil => intro t h; simpa [fillUnion] using h
  | cons a as_ ih =>
      intro t h
      have hstep : fillUnion t (a :: as_) = fillUnion (idxInsert t a) as_ := rfl
      rw [hstep]
      exact ih (idxInsert t a) (idxInsert_nodup t a h)

/-- Helper for C1: membership in a table filled via SRT_Union. -/
theorem mem_fillUnion (t A : List Row) (x : Row) :
    x ∈ fillUnion t A ↔ x ∈ t ∨ x ∈ A := by
  have h := fillUnion_toFinset A t
  have h2 := congrArg (fun s => x ∈ s) h
  simpa using h2

/-- Helper for C1: running the right term via SRT_Except leaves exactly the
rows whose key is not produced by the right term. -/
theorem fillExcept_filter (B : List Row) :
    ∀ t : List Row, fillExcept t B = t.filter (fun x => decide (x ∉ B)) := by
  induction B with
  | nil => intro t; simp [fillExcept]
  | cons b bs ih =>
      intro t
      have hstep : fillExcept t (b :: bs) = fillExcept (idxDelete t b) bs := rfl
      rw [hstep, ih (idxDelete t b), idxDelete, List.filter_filter]
      refine List.filter_congr ?_
      intro x _
      by_cases h1 : x = b <;> by_cases h2 : x ∈ bs <;> simp [h1, h2]

/-- Helper for C1 and others: a duplicate-free list is, as a multiset, the
underlying multiset of its key set. -/
theorem nodup_coe_eq_toFinset_val (L : List Row) (h : L.Nodup) :
    (L.toFinset.val : Multiset Row) = (L : Multiset Row) := by
  rw [List.toFinset_val, List.dedup_eq_self.mpr h]

/-- Claim C1: for a two-term compound query without ORDER BY, the multiset
of rows produced by the compiled plan equals the corresponding mathematical
set operation on the result multisets of the two terms A and B: UNION ALL
preserves multiplicities (output = A + B as multisets), while UNION, EXCEPT
and INTERSECT produce exactly the deduplicated set union, difference and
intersection of the two result sets. -/
theorem compound_setops (A B : List Row) :
    ((compoundNoOrderBy SetOp.all A B : List Row) : Multiset Row) =
      (A : Multiset Row) + (B : Multiset Row) ∧
    ((compoundNoOrderBy SetOp.union A B : List Row) : Multiset Row) =
      (A.toFinset ∪ B.toFinset).val ∧
    ((compoundNoOrderBy SetOp.except A B : List Row) : Multiset Row) =
      (A.toFinset \ B.toFinset).val ∧
    ((compoundNoOrderBy SetOp.intersect A B : List Row) : Multiset Row) =
      (A.toFinset ∩ B.toFinset).val := by
  have hAnodup : (fillUnion [] A).Nodup := fillUnion_nodup A [] (by simp)
  have hAfin : (fillUnion [] A).toFinset = A.toFinset := by
    rw [fillUnion_toFinset]; simp
  refine ⟨by simp [compoundNoOrderBy], ?_, ?_, ?_⟩
  · have hL : compoundNoOrderBy SetOp.union A B = fillUnion (fillUnion [] A) B :=
      rfl
    have hnodup : (fillUnion (fillUnion [] A) B).Nodup :=
      fillUnion_nodup B (fillUnion [] A) hAnodup
    have hfin : (fillUnion (fillUnion [] A) B).toFinset =
        A.toFinset ∪ B.toFinset := by
      rw [fillUnion_toFinset, hAfin]
    rw [hL, ← hfin, nodup_coe_eq_toFinset_val _ hnodup]
  · have hL : compoundNoOrderBy SetOp.except A B =
        fillExcept (fillUnion [] A) B := rfl
    have hfilter := fillExcept_filter B (fillUnion [] A)
    have hnodup : (fillExcept (fillUnion [] A) B).Nodup := by
      rw [hfilter]; exact hAnodup.filter _
    have hfin : (fillExcept (fillUnion [] A) B).toFinset =
        A.toFinset \ B.toFinset := by
      rw [hfilter]
      ext x
      simp [List.mem_filter, mem_fillUnion]
    rw [hL, ← hfin, nodup_coe_eq_toFinset_val _ hnodup]
  · have hL : compoundNoOrderBy SetOp.intersect A B =
        (fillUnion [] A).filter (fun r => r ∈ fillUnion [] B) := rfl
    have hnodup : ((fillUnion [] A).filter
        (fun r => r ∈ fillUnion [] B)).Nodup := hAnodup.filter _
    have hfin : ((fillUnion [] A).filter
        (fun r => r ∈ fillUnion [] B)).toFinset =
        A.toFinset ∩ B.toFinset := by
      ext x
      simp [List.mem_filter, mem_fillUnion]
    rw [hL, ← hfin, nodup_coe_eq_toFinset_val _ hnodup]

/-- Helper for C2: nested-loop iteration over a concatenated FROM list. -/
theorem envsOfF_append (db : Db) (xs ys : List FromTerm) :
    ∀ env : Env, envsOfF db env (xs ++ ys) =
      (envsOfF db env xs).flatMap (fun e => envsOfF db e ys) := by
  induction xs with
  | nil => intro env; simp [envsOfF]
  | cons t ts ih =>
      intro env
      cases t with
      | tbl c sid =>
          simp only [List.cons_append, envsOfF, List.flatMap_assoc,
            List.append_eq]
          exact List.flatMap_congr (fun r _ => ih (updE env c r))
      | sub c q =>
          simp only [List.cons_append, envsOfF, List.flatMap_assoc,
            List.append_eq]
          exact List.flatMap_congr (fun r _ => ih (updE env c r))

/-- Helper for C2: iterating spliced-in base tables equals iterating the
subquery FROM list. -/
theorem envsOfF_mapTbl (db : Db) (ts : List (Nat × Nat)) :
    ∀ env : Env,
      envsOfF db env (ts.map (fun t => FromTerm.tbl t.1 t.2)) =
        envsOfT db env ts := by
  induction ts with
  | nil => intro env; simp [envsOfF, envsOfT]
  | cons t ts ih =>
      intro env
      simp only [List.map_cons, envsOfF, envsOfT]
      exact List.flatMap_congr (fun r _ => ih (updE env t.1 r))

/-- Helper for C2: the environments of a nested-loop iteration are the
incoming environment updated by each choice of bindings. -/
theorem envsOfF_eq_binds (db : Db) (ts : List FromTerm) :
    ∀ env : Env,
      envsOfF db env ts = (bindsOfF db ts).map (applyBinds env) := by
  induction ts with
  | nil => intro env; simp [envsOfF, bindsOfF, applyBinds]
  | cons t ts ih =>
      intro env
      cases t with
      | tbl c sid =>
          simp only [envsOfF, bindsOfF, List.map_flatMap, List.map_map]
          exact List.flatMap_congr (fun r _ => ih (updE env c r))
      | sub c q =>
          simp only [envsOfF, bindsOfF, List.map_flatMap, List.map_map]
          exact List.flatMap_congr (fun r _ => ih (updE env c r))

/-- Helper for C2: every binding sequence binds exactly the cursors of the
FROM terms, in order. -/
theorem bindsOfF_fst (db : Db) (ts : List FromTerm) :
    ∀ bs ∈ bindsOfF db ts, bs.map Prod.fst = ts.map curOfF := by
  induction ts with
  | nil =>
      intro bs hbs
      simp [bindsOfF] at hbs
      simp [hbs]
  | cons t ts ih =>
      intro bs hbs
      cases t with
      | tbl c sid =>
          simp only [bindsOfF, List.mem_flatMap, List.mem_map] at hbs
          obtain ⟨r, _, bs2, hbs2, rfl⟩ := hbs
          simp [curOfF, ih bs2 hbs2]
      | sub c q =>
          simp only [bindsOfF, List.mem_flatMap, List.mem_map] at hbs
          obtain ⟨r, _, bs2, hbs2, rfl⟩ := hbs
          simp [curOfF, ih bs2 hbs2]

/-- Helper for C2: a cursor not bound by the binding sequence reads its
incoming value. -/
theorem applyBinds_not_mem (bs : List (Nat × Row)) :
    ∀ (env : Env) (c : Nat), c ∉ bs.map Prod.fst →
      applyBinds env bs c = env c := by
  induction bs with
  | nil => intro env c _; rfl
  | cons b bs ih =>
      intro env c hc
      simp only [List.map_cons, List.mem_cons] at hc
      push_neg at hc
      rw [applyBinds, ih (updE env b.1 b.2) c hc.2, updE, if_neg hc.1]

/-- Helper for C2: a cursor bound by the binding sequence reads the same
value whatever the incoming environment. -/
theorem applyBinds_mem_agree (bs : List (Nat × Row)) :
    ∀ (env1 env2 : Env) (c : Nat), c ∈ bs.map Prod.fst →
      applyBinds env1 bs c = applyBinds env2 bs c := by
  induction bs with
  | nil => intro env1 env2 c hc; simp at hc
  | cons b bs ih =>
      intro env1 env2 c hc
      by_cases hmem : c ∈ bs.map Prod.fst
      · exact ih (updE env1 b.1 b.2) (updE env2 b.1 b.2) c hmem
      · have hcb : c = b.1 := by
          simp only [List.map_cons, List.mem_cons] at hc
          tauto
        rw [applyBinds, applyBinds,
          applyBinds_not_mem bs (updE env1 b.1 b.2) c hmem,
          applyBinds_not_mem bs (updE env2 b.1 b.2) c hmem,
          updE, updE, if_pos hcb, if_pos hcb]

/-- Helper for C2: expression evaluation depends only on the referenced
cursors. -/
theorem evalE_congr (e : Expr0) :
    ∀ env1 env2 : Env, (∀ c ∈ refsE e, env1 c = env2 c) →
      evalE env1 e = evalE env2 e := by
  induction e with
  | lit n => intro env1 env2 _; rfl
  | col c i => intro env1 env2 h; simp [evalE, h c (by simp [refsE])]
  | add a b iha ihb =>
      intro env1 env2 h
      simp only [refsE, List.mem_append] at h
      simp [evalE, iha env1 env2 (fun c hc => h c (Or.inl hc)),
        ihb env1 env2 (fun c hc => h c (Or.inr hc))]
  | eqx a b iha ihb =>
      intro env1 env2 h
      simp only [refsE, List.mem_append] at h
      simp [evalE, iha env1 env2 (fun c hc => h c (Or.inl hc)),
        ihb env1 env2 (fun c hc => h c (Or.inr hc))]
  | andx a b iha ihb =>
      intro env1 env2 h
      simp only [refsE, List.mem_append] at h
      simp [evalE, iha env1 env2 (fun c hc => h c (Or.inl hc)),
        ihb env1 env2 (fun c hc => h c (Or.inr hc))]

/-- Helper for C2: substitution is the identity on an expression that does
not reference the substituted cursor. -/
theorem substE_not_ref (iParent : Nat) (els : List Expr0) (e : Expr0) :
    iParent ∉ refsE e → substE iParent els e = e := by
  induction e with
  | lit n => intro _; rfl
  | col c i =>
      intro h
      have hne : ¬ c = iParent := by
        intro hc
        subst hc
        simp [refsE] at h
      simp [substE, hne]
  | add a b iha ihb =>
      intro h
      simp only [refsE, List.mem_append] at h
      push_neg at h
      simp [substE, iha h.1, ihb h.2]
  | eqx a b iha ihb =>
      intro h
      simp only [refsE, List.mem_append] at h
      push_neg at h
      simp [substE, iha h.1, ihb h.2]
  | andx a b iha ihb =>
      intro h
      simp only [refsE, List.mem_append] at h
      push_neg at h
      simp [substE, iha h.1, ihb h.2]

/-- Helper for C2, the heart of the flattening rewrite: evaluating a
substituted outer expression in the flat environment (subquery FROM
bindings plus the remaining outer bindings) agrees with evaluating the
original expression in the unflattened environment (the subquery cursor
bound to the materialized subquery row plus the same outer bindings). -/
theorem substE_eval (iParent : Nat) (q : SimpleSel)
    (rest : List FromTerm) (eS : Env) (bs : List (Nat × Row))
    (hq : ∀ e2 ∈ q.cols, refsE e2 ⊆ q.fromT.map Prod.fst)
    (hdisj : ∀ c ∈ q.fromT.map Prod.fst, c ∉ rest.map curOfF)
    (hpr : iParent ∉ rest.map curOfF)
    (hbs : bs.map Prod.fst = rest.map curOfF) :
    ∀ e : Expr0, refsE e ⊆ iParent :: rest.map curOfF →
      (∀ i ∈ colIdxAt iParent e, i < q.cols.length) →
      evalE (applyBinds eS bs) (substE iParent q.cols e) =
        evalE (applyBinds (updE baseEnv iParent (q.cols.map (evalE eS))) bs) e := by
  intro e
  induction e with
  | lit n => intro _ _; rfl
  | col c i =>
      intro hrefs hidx
      by_cases hc : c = iParent
      · subst hc
        have hi : i < q.cols.length := by
          exact hidx i (by simp [colIdxAt])
        have hsub : substE c q.cols (Expr0.col c i) = q.cols[i] := by
          simp [substE, List.getElem?_eq_getElem hi]
        rw [hsub]
        have hmemcols : q.cols[i] ∈ q.cols := List.getElem_mem hi
        have hleft : evalE (applyBinds eS bs) q.cols[i] = evalE eS q.cols[i] := by
          refine evalE_congr _ _ _ ?_
          intro c2 hc2
          refine applyBinds_not_mem bs eS c2 ?_
          rw [hbs]
          exact hdisj c2 (hq q.cols[i] hmemcols hc2)
        have hright :
            evalE (applyBinds (updE baseEnv c (q.cols.map (evalE eS))) bs)
              (Expr0.col c i) = evalE eS q.cols[i] := by
          have hnot : c ∉ bs.map Prod.fst := by rw [hbs]; exact hpr
          have h1 : applyBinds (updE baseEnv c (q.cols.map (evalE eS))) bs c =
              q.cols.map (evalE eS) := by
            rw [applyBinds_not_mem bs _ c hnot, updE, if_pos rfl]
          have hlen : i < (q.cols.map (evalE eS)).length := by
            simpa using hi
          have h2 : (q.cols.map (evalE eS)).getD i 0 = evalE eS q.cols[i] := by
            simp [List.getElem?_eq_getElem hlen]
          simp only [evalE, h1, h2]
        rw [hleft, hright]
      · have hsub : substE iParent q.cols (Expr0.col c i) = Expr0.col c i := by
          simp [substE, hc]
        rw [hsub]
        have hcr : c ∈ rest.map curOfF := by
          have hmem := hrefs (by simp [refsE] : c ∈ refsE (Expr0.col c i))
          rcases List.mem_cons.mp hmem with h1 | h2
          · exact absurd h1 hc
          · exact h2
        have hagree := applyBinds_mem_agree bs eS
          (updE baseEnv iParent (q.cols.map (evalE eS))) c (by rw [hbs]; exact hcr)
        simp [evalE, hagree]
  | add a b iha ihb =>
      intro hrefs hidx
      have hra : refsE a ⊆ iParent :: rest.map curOfF := fun c hc =>
        hrefs (by simp [refsE, hc])
      have hrb : refsE b ⊆ iParent :: rest.map curOfF := fun c hc =>
        hrefs (by simp [refsE, hc])
      have hia : ∀ i ∈ colIdxAt iParent a, i < q.cols.length := fun i hi =>
        hidx i (by simp [colIdxAt, hi])
      have hib : ∀ i ∈ colIdxAt iParent b, i < q.cols.length := fun i hi =>
        hidx i (by simp [colIdxAt, hi])
      simp [substE, evalE, iha hra hia, ihb hrb hib]
  | eqx a b iha ihb =>
      intro hrefs hidx
      have hra : refsE a ⊆ iParent :: rest.map curOfF := fun c hc =>
        hrefs (by simp [refsE, hc])
      have hrb : refsE b ⊆ iParent :: rest.map curOfF := fun c hc =>
        hrefs (by simp [refsE, hc])
      have hia : ∀ i ∈ colIdxAt iParent a, i < q.cols.length := fun i hi =>
        hidx i (by simp [colIdxAt, hi])
      have hib : ∀ i ∈ colIdxAt iParent b, i < q.cols.length := fun i hi =>
        hidx i (by simp [colIdxAt, hi])
      simp [substE, evalE, iha hra hia, ihb hrb hib]
  | andx a b iha ihb =>
      intro hrefs hidx
      have hra : refsE a ⊆ iParent :: rest.map curOfF := fun c hc =>
        hrefs (by simp [refsE, hc])
      have hrb : refsE b ⊆ iParent :: rest.map curOfF := fun c hc =>
        hrefs (by simp [refsE, hc])
      have hia : ∀ i ∈ colIdxAt iParent a, i < q.cols.length := fun i hi =>
        hidx i (by simp [colIdxAt, hi])
      have hib : ∀ i ∈ colIdxAt iParent b, i < q.cols.length := fun i hi =>
        hidx i (by simp [colIdxAt, hi])
      simp [substE, evalE, iha hra hia, ihb hrb hib]

/-- Helper for C2: the flattened WHERE clause (subquery WHERE conjoined in
front of the outer WHERE, then substituted) accepts the flat environment
exactly when the subquery WHERE accepts the subquery bindings and the outer
WHERE accepts the unflattened environment. -/
theorem flatten_where_eval (iParent : Nat) (q : SimpleSel)
    (rest : List FromTerm) (eS : Env) (bs : List (Nat × Row))
    (pw : Option Expr0)
    (hqw : match q.whereE with
           | none => True
           | some w => refsE w ⊆ q.fromT.map Prod.fst)
    (hparq : iParent ∉ q.fromT.map Prod.fst)
    (hdisj : ∀ c ∈ q.fromT.map Prod.fst, c ∉ rest.map curOfF)
    (hpr : iParent ∉ rest.map curOfF)
    (hbs : bs.map Prod.fst = rest.map curOfF)
    (hq : ∀ e2 ∈ q.cols, refsE e2 ⊆ q.fromT.map Prod.fst)
    (hpw : match pw with
           | none => True
           | some w => refsE w ⊆ iParent :: rest.map curOfF ∧
               ∀ i ∈ colIdxAt iParent w, i < q.cols.length) :
    evalW (applyBinds eS bs) (substW iParent q.cols (exprAnd q.whereE pw)) =
      (evalW eS q.whereE &&
        evalW (applyBinds (updE baseEnv iParent (q.cols.map (evalE eS))) bs)
          pw) := by
  have hqw_eval : ∀ w : Expr0, refsE w ⊆ q.fromT.map Prod.fst →
      evalE (applyBinds eS bs) w = evalE eS w := by
    intro w hw
    refine evalE_congr _ _ _ ?_
    intro c hcw
    exact applyBinds_not_mem bs eS c (by rw [hbs]; exact hdisj c (hw hcw))
  have hqw_id : ∀ w : Expr0, refsE w ⊆ q.fromT.map Prod.fst →
      substE iParent q.cols w = w := by
    intro w hw
    exact substE_not_ref iParent q.cols w (fun hmem => hparq (hw hmem))
  match hqe : q.whereE, hpe : pw with
  | none, none =>
      simp [exprAnd, substW, evalW]
  | none, some w2 =>
      replace hpw : refsE w2 ⊆ iParent :: rest.map curOfF ∧
          ∀ i ∈ colIdxAt iParent w2, i < q.cols.length := hpw
      have h2 := substE_eval iParent q rest eS bs hq hdisj hpr
        hbs w2 hpw.1 hpw.2
      simp [exprAnd, substW, evalW, h2]
  | some w, none =>
      rw [hqe] at hqw
      replace hqw : refsE w ⊆ q.fromT.map Prod.fst := hqw
      simp [exprAnd, substW, evalW, hqw_id w hqw, hqw_eval w hqw]
  | some w, some w2 =>
      rw [hqe] at hqw
      replace hqw : refsE w ⊆ q.fromT.map Prod.fst := hqw
      replace hpw : refsE w2 ⊆ iParent :: rest.map curOfF ∧
          ∀ i ∈ colIdxAt iParent w2, i < q.cols.length := hpw
      have h2 := substE_eval iParent q rest eS bs hq hdisj hpr
        hbs w2 hpw.1 hpw.2
      simp only [exprAnd, substW, substE, hqw_id w hqw, evalW, evalE, h2,
        hqw_eval w hqw]
      by_cases ha : evalE eS w = 0 <;>
        by_cases hb :
          evalE (applyBinds (updE baseEnv iParent (q.cols.map (evalE eS))) bs)
            w2 = 0 <;>
        simp [ha, hb]

/-- Helper for C2: a flatMap whose per-element list is gated by a boolean
equals the flatMap over the filtered list. -/
theorem flatMap_ite_eq_filter {α β : Type} (L : List α) (P : α → Bool)
    (f : α → List β) :
    L.flatMap (fun x => if P x then f x else []) = (L.filter P).flatMap f := by
  induction L with
  | nil => simp
  | cons x xs ih =>
      by_cases h : P x <;> simp [h, ih]
/-- Helper for C2: on the non-aggregate, non-compound flattening shape with
the subquery in the first FROM slot, the flattened query produces the same
row list as the unflattened one (same rows, same order).  The hypotheses
are the well-formedness facts name resolution guarantees: subquery
expressions reference only subquery cursors, cursors of the subquery, of
the remaining FROM terms and the subquery cursor are pairwise distinct, and
outer references into the subquery cursor stay within its result arity. -/
theorem flattenHead_preserves_rows (db : Db) (p : OuterSel) (iParent : Nat)
    (q : SimpleSel) (rest : List FromTerm)
    (hshape : p.fromT = FromTerm.sub iParent q :: rest)
    (hq : ∀ e2 ∈ q.cols, refsE e2 ⊆ q.fromT.map Prod.fst)
    (hqw : match q.whereE with
           | none => True
           | some w => refsE w ⊆ q.fromT.map Prod.fst)
    (hparq : iParent ∉ q.fromT.map Prod.fst)
    (hdisj : ∀ c ∈ q.fromT.map Prod.fst, c ∉ rest.map curOfF)
    (hpr : iParent ∉ rest.map curOfF)
    (hpcols : ∀ e ∈ p.cols, refsE e ⊆ iParent :: rest.map curOfF)
    (hpidx : ∀ e ∈ p.cols, ∀ i ∈ colIdxAt iParent e, i < q.cols.length)
    (hpw : match p.whereE with
           | none => True
           | some w => refsE w ⊆ iParent :: rest.map curOfF ∧
               ∀ i ∈ colIdxAt iParent w, i < q.cols.length) :
    evalOuter db (flattenHead p) = evalOuter db p := by
  obtain ⟨pfrom, pw, pcols⟩ := p
  simp only at hshape hpcols hpidx hpw
  subst hshape
  have hflat : flattenHead
      ⟨FromTerm.sub iParent q :: rest, pw, pcols⟩ =
      ⟨(q.fromT.map (fun t => FromTerm.tbl t.1 t.2)) ++ rest,
        substW iParent q.cols (exprAnd q.whereE pw),
        pcols.map (substE iParent q.cols)⟩ := rfl
  rw [hflat]
  -- left side: iterate the spliced FROM list
  have hL1 : envsOfF db baseEnv
      ((q.fromT.map (fun t => FromTerm.tbl t.1 t.2)) ++ rest) =
      (envsOfT db baseEnv q.fromT).flatMap
        (fun eS => (bindsOfF db rest).map (applyBinds eS)) := by
    rw [envsOfF_append, envsOfF_mapTbl]
    exact List.flatMap_congr (fun eS _ => envsOfF_eq_binds db rest eS)
  -- per-subquery-environment inner transformation
  have hinner : ∀ eS : Env,
      (((bindsOfF db rest).map (applyBinds eS)).filter
        (fun env => evalW env
          (substW iParent q.cols (exprAnd q.whereE pw)))).map
        (fun env => (pcols.map (substE iParent q.cols)).map (evalE env)) =
      (if evalW eS q.whereE then
        ((bindsOfF db rest).filter
          (fun bs => evalW
            (applyBinds (updE baseEnv iParent (q.cols.map (evalE eS))) bs)
            pw)).map
          (fun bs => pcols.map (evalE
            (applyBinds (updE baseEnv iParent (q.cols.map (evalE eS))) bs)))
       else []) := by
    intro eS
    rw [List.filter_map, List.map_map]
    have hfil : ((bindsOfF db rest).filter
        ((fun env => evalW env
          (substW iParent q.cols (exprAnd q.whereE pw))) ∘ applyBinds eS)) =
        (bindsOfF db rest).filter
          (fun bs => evalW eS q.whereE && evalW
            (applyBinds (updE baseEnv iParent (q.cols.map (evalE eS))) bs)
            pw) := by
      refine List.filter_congr ?_
      intro bs hbsmem
      simp only [Function.comp]
      exact flatten_where_eval iParent q rest eS bs pw hqw hparq hdisj hpr
        (bindsOfF_fst db rest bs hbsmem) hq hpw
    rw [hfil]
    by_cases hW : evalW eS q.whereE
    · rw [if_pos hW]
      have hfil2 : (bindsOfF db rest).filter
          (fun bs => evalW eS q.whereE && evalW
            (applyBinds (updE baseEnv iParent (q.cols.map (evalE eS))) bs)
            pw) =
          (bindsOfF db rest).filter
            (fun bs => evalW
              (applyBinds (updE baseEnv iParent (q.cols.map (evalE eS))) bs)
              pw) := by
        refine List.filter_congr ?_
        intro bs _
        rw [hW, Bool.true_and]
      rw [hfil2]
      refine List.map_congr_left ?_
      intro bs hbsf
      have hbsmem : bs ∈ bindsOfF db rest := List.mem_of_mem_filter hbsf
      simp only [Function.comp]
      rw [List.map_map]
      refine List.map_congr_left ?_
      intro e he
      simp only [Function.comp]
      exact substE_eval iParent q rest eS bs hq hdisj hpr
        (bindsOfF_fst db rest bs hbsmem) e (hpcols e he) (hpidx e he)
    · rw [if_neg hW]
      have hWf : evalW eS q.whereE = false := by
        exact Bool.not_eq_true _ ▸ (by simpa using hW)
      have hfil3 : (bindsOfF db rest).filter
          (fun bs => evalW eS q.whereE && evalW
            (applyBinds (updE baseEnv iParent (q.cols.map (evalE eS))) bs)
            pw) = [] := by
        rw [List.filter_eq_nil_iff]
        intro bs _
        simp [hWf]
      rw [hfil3]
      simp
  -- right side: iterate the subquery rows
  have hR1 : envsOfF db baseEnv (FromTerm.sub iParent q :: rest) =
      ((envsOfT db baseEnv q.fromT).filter
        (fun eS => evalW eS q.whereE)).flatMap
        (fun eS => (bindsOfF db rest).map
          (applyBinds (updE baseEnv iParent (q.cols.map (evalE eS))))) := by
    rw [envsOfF, evalSimple, List.flatMap_map]
    exact List.flatMap_congr
      (fun eS _ => envsOfF_eq_binds db rest
        (updE baseEnv iParent (q.cols.map (evalE eS))))
  -- assemble both sides
  rw [evalOuter, evalOuter]
  simp only
  rw [hL1, hR1, List.filter_flatMap, List.map_flatMap,
    List.filter_flatMap, List.map_flatMap]
  rw [List.flatMap_congr (fun eS _ => hinner eS)]
  rw [flatMap_ite_eq_filter]
  refine List.flatMap_congr ?_
  intro eS _
  rw [List.filter_map, List.map_map]
  rfl

/-- Claim C2: where the flattening preconditions hold (here: the
non-aggregate, non-compound rewrite of flattenSubquery, with the resolved
tree well-formed), the flattened plan and the unflattened plan produce
equal result multisets of rows, ignoring row order, for all inputs. -/
theorem flatten_preserves_multiset (db : Db) (p : OuterSel) (iParent : Nat)
    (q : SimpleSel) (rest : List FromTerm)
    (hshape : p.fromT = FromTerm.sub iParent q :: rest)
    (hq : ∀ e2 ∈ q.cols, refsE e2 ⊆ q.fromT.map Prod.fst)
    (hqw : match q.whereE with
           | none => True
           | some w => refsE w ⊆ q.fromT.map Prod.fst)
    (hparq : iParent ∉ q.fromT.map Prod.fst)
    (hdisj : ∀ c ∈ q.fromT.map Prod.fst, c ∉ rest.map curOfF)
    (hpr : iParent ∉ rest.map curOfF)
    (hpcols : ∀ e ∈ p.cols, refsE e ⊆ iParent :: rest.map curOfF)
    (hpidx : ∀ e ∈ p.cols, ∀ i ∈ colIdxAt iParent e, i < q.cols.length)
    (hpw : match p.whereE with
           | none => True
           | some w => refsE w ⊆ iParent :: rest.map curOfF ∧
               ∀ i ∈ colIdxAt iParent w, i < q.cols.length) :
    ((evalOuter db (flattenHead p) : List Row) : Multiset Row) =
      ((evalOuter db p : List Row) : Multiset Row) := by
  rw [flattenHead_preserves_rows db p iParent q rest hshape hq hqw hparq
    hdisj hpr hpcols hpidx hpw]

/-- Witness for C2: the example query
SELECT a+100 FROM (SELECT x+3 AS a FROM t1 WHERE x = 2) WHERE a = 5
over t1 = {1,2,3}: flattened and unflattened plans produce the same
multiset of rows. -/
theorem flatten_preserves_multiset_witness :
    ((evalOuter exDb (flattenHead exOuterSel) : List Row) : Multiset Row) =
      ((evalOuter exDb exOuterSel : List Row) : Multiset Row) :=
  flatten_preserves_multiset exDb exOuterSel 9 exSubSel [] (by decide)
    (by decide)
    (show refsE (Expr0.eqx (Expr0.col 7 0) (Expr0.lit 2)) ⊆
        exSubSel.fromT.map Prod.fst from by decide)
    (by decide) (by decide) (by decide) (by decide) (by decide)
    (show refsE (Expr0.eqx (Expr0.col 9 0) (Expr0.lit 5)) ⊆
        9 :: List.map curOfF [] ∧
        ∀ i ∈ colIdxAt 9 (Expr0.eqx (Expr0.col 9 0) (Expr0.lit 5)),
          i < exSubSel.cols.length from by decide)
